import Mathlib

set_option maxHeartbeats 1000000

/-!
Verification development for the movement / grounding / animation core of the
`bunvivor` repository (Rust, bevy-based).  The definitions below are shallow
embeddings of the functions in `src/animation.rs`, `src/controls.rs` and
`src/lib.rs`; machine floats (`f32`) are modelled as exact rationals or reals,
`usize` as `Nat`.
-/

/-! ## Animation module (src/animation.rs) -/

/-- Embedding of `enum AnimationMode { Cycle, Bounce, Once }`. -/
inductive AnimationMode
  | Cycle
  | Bounce
  | Once
deriving DecidableEq

/-- Embedding of `enum AnimationDir { Forward, Backward }`. -/
inductive AnimationDir
  | Forward
  | Backward
deriving DecidableEq

/-- Embedding of `struct AnimationIndices { first, last, mode, dir, cur }`
(`usize` fields become `Nat`). -/
structure AnimationIndices where
  first : Nat
  last : Nat
  mode : AnimationMode
  dir : AnimationDir
  cur : Nat
deriving DecidableEq

/-- Embedding of `AnimationIndices::new(first, last, mode)`:
direction starts `Forward`, current frame starts at `first`. -/
def AnimationIndices.new (first last : Nat) (mode : AnimationMode) : AnimationIndices :=
  { first := first, last := last, mode := mode, dir := AnimationDir.Forward, cur := first }

/-- Embedding of `AnimationIndices::next(&mut self)` (state transition part).
In `Bounce` mode the Rust code first moves `cur` by the direction, then flips
the direction when the new `cur` hits `last` (to `Backward`) or `first`
(to `Forward`).  The Rust `self.cur -= 1` on `usize` is modelled by truncated
`Nat` subtraction; a `Backward` state with `cur = 0` is not reachable from
`new` in the situations analysed below, so the two agree on all states used. -/
def AnimationIndices.next (a : AnimationIndices) : AnimationIndices :=
  match a.mode with
  | AnimationMode.Once =>
      if a.cur ≤ a.last then { a with cur := a.cur + 1 } else a
  | AnimationMode.Cycle =>
      let c := a.cur + 1
      if c > a.last then { a with cur := a.first } else { a with cur := c }
  | AnimationMode.Bounce =>
      let c := match a.dir with
        | AnimationDir.Forward => a.cur + 1
        | AnimationDir.Backward => a.cur - 1
      if c = a.last then { a with cur := c, dir := AnimationDir.Backward }
      else if c = a.first then { a with cur := c, dir := AnimationDir.Forward }
      else { a with cur := c }

/-- The value returned by `AnimationIndices::next` is the updated `cur`. -/
def AnimationIndices.nextFrame (a : AnimationIndices) : Nat :=
  a.next.cur

/-- `nextN a n` is the state after `n` calls of `next()` starting from `a`. -/
def nextN (a : AnimationIndices) : Nat → AnimationIndices
  | 0 => a
  | n + 1 => (nextN a n).next

theorem nextN_add (a : AnimationIndices) (m n : Nat) :
    nextN a (m + n) = nextN (nextN a m) n := by
  induction n with
  | zero => rfl
  | succ n ih => rw [← Nat.add_assoc, nextN, ih, nextN]

/-- Step characterisation of `next` in `Once` mode. -/
theorem next_once (a : AnimationIndices) (h : a.mode = AnimationMode.Once) :
    a.next = { a with cur := if a.cur ≤ a.last then a.cur + 1 else a.cur } := by
  obtain ⟨f, l, m, d, c⟩ := a
  dsimp at h
  subst h
  by_cases hc : c ≤ l <;> simp [AnimationIndices.next, hc]

/-- Step characterisation of `next` in `Cycle` mode. -/
theorem next_cycle (a : AnimationIndices) (h : a.mode = AnimationMode.Cycle) :
    a.next = { a with cur := if a.cur + 1 > a.last then a.first else a.cur + 1 } := by
  obtain ⟨f, l, m, d, c⟩ := a
  dsimp at h
  subst h
  by_cases hc : c + 1 > l <;> simp [AnimationIndices.next, hc]

/-- Step characterisation of `next` in `Bounce` mode. -/
theorem next_bounce (a : AnimationIndices) (h : a.mode = AnimationMode.Bounce) :
    a.next =
      { a with
        cur := match a.dir with
          | AnimationDir.Forward => a.cur + 1
          | AnimationDir.Backward => a.cur - 1
        dir :=
          (if (match a.dir with
                | AnimationDir.Forward => a.cur + 1
                | AnimationDir.Backward => a.cur - 1) = a.last then
            AnimationDir.Backward
          else if (match a.dir with
                | AnimationDir.Forward => a.cur + 1
                | AnimationDir.Backward => a.cur - 1) = a.first then
            AnimationDir.Forward
          else a.dir) } := by
  obtain ⟨f, l, m, d, c⟩ := a
  dsimp at h
  subst h
  cases d <;> dsimp [AnimationIndices.next] <;> split_ifs <;> rfl

/-- `next` never changes `first`, `last` or `mode`. -/
theorem next_fields (a : AnimationIndices) :
    a.next.first = a.first ∧ a.next.last = a.last ∧ a.next.mode = a.mode := by
  obtain ⟨f, l, m, d, c⟩ := a
  cases m <;> cases d <;> dsimp [AnimationIndices.next] <;> split_ifs <;> simp

/-- Iterated `next` never changes `first`, `last` or `mode`. -/
theorem nextN_fields (a : AnimationIndices) (n : Nat) :
    (nextN a n).first = a.first ∧ (nextN a n).last = a.last ∧
      (nextN a n).mode = a.mode := by
  induction n with
  | zero => exact ⟨rfl, rfl, rfl⟩
  | succ n ih =>
    have h := next_fields (nextN a n)
    rw [nextN]
    exact ⟨h.1.trans ih.1, h.2.1.trans ih.2.1, h.2.2.trans ih.2.2⟩

/-- In `Once` mode the current frame after `n` advances is
`min (first + n) (last + 1)`. -/
theorem once_nextN (f l : Nat) (hfl : f ≤ l) (n : Nat) :
    (nextN (AnimationIndices.new f l AnimationMode.Once) n).cur =
      min (f + n) (l + 1) := by
  induction n with
  | zero => simp [nextN, AnimationIndices.new]; omega
  | succ n ih =>
    have hm : (nextN (AnimationIndices.new f l AnimationMode.Once) n).mode =
        AnimationMode.Once := (nextN_fields _ n).2.2
    have hl : (nextN (AnimationIndices.new f l AnimationMode.Once) n).last = l :=
      (nextN_fields _ n).2.1
    rw [nextN, next_once _ hm]
    dsimp
    rw [hl, ih]
    split_ifs <;> omega

/-- Helper: `(t + 1) % p` in terms of `t % p`. -/
theorem mod_succ_eq (t p : Nat) (hp : 0 < p) :
    (t + 1) % p = if t % p + 1 = p then 0 else t % p + 1 := by
  have hd := Nat.div_add_mod t p
  have hlt := Nat.mod_lt t hp
  by_cases hc : t % p + 1 = p
  · rw [if_pos hc]
    have ht : t + 1 = p * (t / p) + p := by omega
    rw [ht, show p * (t / p) + p = p * (t / p + 1) by ring, Nat.mul_mod_right]
  · rw [if_neg hc]
    have ht : t + 1 = p * (t / p) + (t % p + 1) := by omega
    rw [ht, Nat.mul_add_mod]
    exact Nat.mod_eq_of_lt (by omega)

/-- In `Cycle` mode, starting from any in-range state, the state after `n`
advances has `cur = first + ((cur₀ - first) + n) % (last - first + 1)` and all
other fields unchanged. -/
theorem cycle_nextN (a : AnimationIndices) (hm : a.mode = AnimationMode.Cycle)
    (hfl : a.first ≤ a.last) (h1 : a.first ≤ a.cur) (h2 : a.cur ≤ a.last)
    (n : Nat) :
    nextN a n =
      { a with cur := a.first + (a.cur - a.first + n) % (a.last - a.first + 1) } := by
  induction n with
  | zero =>
    have hv : a.cur - a.first + 0 < a.last - a.first + 1 := by omega
    rw [nextN, Nat.mod_eq_of_lt hv]
    have : a.first + (a.cur - a.first + 0) = a.cur := by omega
    rw [this]
  | succ n ih =>
    rw [nextN, ih]
    have hmode : ({ a with
        cur := a.first + (a.cur - a.first + n) % (a.last - a.first + 1) } :
        AnimationIndices).mode = AnimationMode.Cycle := hm
    rw [next_cycle _ hmode]
    dsimp
    have hp : 0 < a.last - a.first + 1 := by omega
    have hlt := Nat.mod_lt (a.cur - a.first + n) hp
    have harg : a.cur - a.first + (n + 1) = a.cur - a.first + n + 1 := by omega
    rw [harg, mod_succ_eq _ _ hp]
    by_cases hc : (a.cur - a.first + n) % (a.last - a.first + 1) + 1 =
        a.last - a.first + 1
    · rw [if_pos hc]
      have : ¬ a.first + (a.cur - a.first + n) % (a.last - a.first + 1) + 1 ≤
          a.last := by omega
      simp only [gt_iff_lt]
      rw [if_pos (by omega)]
      simp
    · rw [if_neg hc]
      simp only [gt_iff_lt]
      rw [if_neg (by omega)]
      simp [Nat.add_assoc]

/-- In `Bounce` mode with `first < last`, the state after `n` advances is a
triangle wave of period `p = 2*(last - first)`: the current frame is
`first + min (n % p) (p - n % p)` and the direction is `Forward` exactly while
`n % p < last - first`. -/
theorem bounce_nextN (f l : Nat) (h : f < l) (n : Nat) :
    nextN (AnimationIndices.new f l AnimationMode.Bounce) n =
      { first := f, last := l, mode := AnimationMode.Bounce,
        dir := if n % (2 * (l - f)) < l - f then AnimationDir.Forward
               else AnimationDir.Backward,
        cur := f + min (n % (2 * (l - f))) (2 * (l - f) - n % (2 * (l - f))) } := by
  set d := l - f with hd
  set p := 2 * d with hpdef
  have hp : 0 < p := by omega
  induction n with
  | zero =>
    rw [nextN, Nat.zero_mod, if_pos (show 0 < d by omega)]
    simp [AnimationIndices.new]
  | succ n ih =>
    rw [nextN, ih]
    have hmod := mod_succ_eq n p hp
    have hmlt : n % p < p := Nat.mod_lt n hp
    rw [hmod]
    generalize hm : n % p = m at hmlt ⊢
    by_cases hcase : m < d
    · rw [if_pos hcase]
      have hminm : min m (p - m) = m := by omega
      rw [hminm]
      rw [next_bounce _ rfl]
      dsimp
      by_cases h2 : m + 1 = d
      · rw [if_pos (show f + m + 1 = l by omega)]
        rw [if_neg (show ¬ m + 1 = p by omega)]
        rw [if_neg (show ¬ m + 1 < d by omega)]
        simp [AnimationIndices.mk.injEq]
        omega
      · rw [if_neg (show ¬ f + m + 1 = l by omega),
            if_neg (show ¬ f + m + 1 = f by omega)]
        rw [if_neg (show ¬ m + 1 = p by omega)]
        rw [if_pos (show m + 1 < d by omega)]
        simp [AnimationIndices.mk.injEq]
        omega
    · rw [if_neg hcase]
      have hminm : min m (p - m) = p - m := by omega
      rw [hminm]
      rw [next_bounce _ rfl]
      dsimp
      by_cases h2 : m + 1 = p
      · rw [if_neg (show ¬ f + (p - m) - 1 = l by omega),
            if_pos (show f + (p - m) - 1 = f by omega)]
        rw [if_pos h2]
        rw [if_pos (show 0 < d by omega)]
        simp [AnimationIndices.mk.injEq]
        omega
      · rw [if_neg (show ¬ f + (p - m) - 1 = l by omega),
            if_neg (show ¬ f + (p - m) - 1 = f by omega)]
        rw [if_neg h2]
        rw [if_neg (show ¬ m + 1 < d by omega)]
        simp [AnimationIndices.mk.injEq]
        omega

/-- Claim C1 (amended): for every `AnimationIndices` built by
`new(first, last, mode)` with `first ≤ last`, and `first < last` when the mode
is `Bounce`, after any number of `next()` calls the invariant
`first ≤ current ≤ last` holds, except that in `Once` mode `current` may equal
`last + 1` as a terminal marker. -/
theorem c1_indices_invariant (first last : Nat) (mode : AnimationMode)
    (h1 : first ≤ last) (h2 : mode = AnimationMode.Bounce → first < last)
    (n : Nat) :
    ((nextN (AnimationIndices.new first last mode) n).first ≤
        (nextN (AnimationIndices.new first last mode) n).cur ∧
      (nextN (AnimationIndices.new first last mode) n).cur ≤
        (nextN (AnimationIndices.new first last mode) n).last) ∨
    ((nextN (AnimationIndices.new first last mode) n).mode = AnimationMode.Once ∧
      (nextN (AnimationIndices.new first last mode) n).cur =
        (nextN (AnimationIndices.new first last mode) n).last + 1) := by
  have hfields := nextN_fields (AnimationIndices.new first last mode) n
  rw [hfields.1, hfields.2.1, hfields.2.2]
  show (first ≤ _ ∧ _ ≤ last) ∨ (mode = AnimationMode.Once ∧ _ = last + 1)
  cases mode with
  | Once =>
    rw [once_nextN first last h1 n]
    simp only [eq_self_iff_true, true_and]
    omega
  | Cycle =>
    have hc := congrArg AnimationIndices.cur
      (cycle_nextN (AnimationIndices.new first last AnimationMode.Cycle) rfl
        (by simpa [AnimationIndices.new] using h1)
        (by simp [AnimationIndices.new])
        (by simpa [AnimationIndices.new] using h1) n)
    simp only [AnimationIndices.new] at hc ⊢
    left
    have hp : 0 < last - first + 1 := by omega
    have hlt := Nat.mod_lt (first - first + n) hp
    rw [hc]
    generalize (first - first + n) % (last - first + 1) = m at hlt ⊢
    omega
  | Bounce =>
    have hfl := h2 rfl
    have hc := congrArg AnimationIndices.cur (bounce_nextN first last hfl n)
    dsimp at hc
    left
    have hp : 0 < 2 * (last - first) := by omega
    have hlt := Nat.mod_lt n hp
    rw [hc]
    generalize n % (2 * (last - first)) = m at hlt ⊢
    omega

/-- Witness for C1 at `first = 0`, `last = 1`, `Bounce`, after 5 advances. -/
theorem c1_indices_invariant_witness :
    ((0 : Nat) ≤ 1 ∧ (AnimationMode.Bounce = AnimationMode.Bounce → (0 : Nat) < 1)) ∧
    (((nextN (AnimationIndices.new 0 1 AnimationMode.Bounce) 5).first ≤
        (nextN (AnimationIndices.new 0 1 AnimationMode.Bounce) 5).cur ∧
      (nextN (AnimationIndices.new 0 1 AnimationMode.Bounce) 5).cur ≤
        (nextN (AnimationIndices.new 0 1 AnimationMode.Bounce) 5).last) ∨
    ((nextN (AnimationIndices.new 0 1 AnimationMode.Bounce) 5).mode =
        AnimationMode.Once ∧
      (nextN (AnimationIndices.new 0 1 AnimationMode.Bounce) 5).cur =
        (nextN (AnimationIndices.new 0 1 AnimationMode.Bounce) 5).last + 1)) :=
  ⟨⟨by decide, fun _ => by decide⟩,
    c1_indices_invariant 0 1 AnimationMode.Bounce (by decide) (fun _ => by decide) 5⟩

/-- Counterexample to C1 as stated (it claimed the invariant for *every* mode
and *every* pair): for the pair `(0, 0)` in `Bounce` mode one `next()` call
already yields `cur = 1 > last` (and the mode is not `Once`), and for the
pair `(5, 3)` in `Cycle` mode one `next()` call yields `cur = 5 > 3 = last`. -/
theorem c1_indices_invariant_cex :
    ¬ ((((nextN (AnimationIndices.new 0 0 AnimationMode.Bounce) 1).first ≤
          (nextN (AnimationIndices.new 0 0 AnimationMode.Bounce) 1).cur ∧
        (nextN (AnimationIndices.new 0 0 AnimationMode.Bounce) 1).cur ≤
          (nextN (AnimationIndices.new 0 0 AnimationMode.Bounce) 1).last) ∨
      ((nextN (AnimationIndices.new 0 0 AnimationMode.Bounce) 1).mode =
          AnimationMode.Once ∧
        (nextN (AnimationIndices.new 0 0 AnimationMode.Bounce) 1).cur =
          (nextN (AnimationIndices.new 0 0 AnimationMode.Bounce) 1).last + 1))) ∧
    ¬ ((((nextN (AnimationIndices.new 5 3 AnimationMode.Cycle) 1).first ≤
          (nextN (AnimationIndices.new 5 3 AnimationMode.Cycle) 1).cur ∧
        (nextN (AnimationIndices.new 5 3 AnimationMode.Cycle) 1).cur ≤
          (nextN (AnimationIndices.new 5 3 AnimationMode.Cycle) 1).last) ∨
      ((nextN (AnimationIndices.new 5 3 AnimationMode.Cycle) 1).mode =
          AnimationMode.Once ∧
        (nextN (AnimationIndices.new 5 3 AnimationMode.Cycle) 1).cur =
          (nextN (AnimationIndices.new 5 3 AnimationMode.Cycle) 1).last + 1))) := by
  decide

/-- Claim C2 (amended): for pairs with `first < last`, repeatedly calling
`next()` on a `Bounce`-mode state starting at `current = first`, direction
`Forward`, produces the palindromic triangle wave
`first, first+1, …, last, last-1, …, first, …` (frame `n` is
`first + min (n % p) (p - n % p)` with period `p = 2*(last-first)`, so each
endpoint occurs exactly once per period), the direction is `Backward` exactly
on the half-period where `current` has reached `last` and flips back to
`Forward` exactly when `current` returns to `first`, and after one full period
the state is the initial state again, so the oscillation continues
indefinitely. -/
theorem c2_bounce_palindrome (first last : Nat) (h : first < last) (n : Nat) :
    (nextN (AnimationIndices.new first last AnimationMode.Bounce) n).cur =
        first + min (n % (2 * (last - first)))
          (2 * (last - first) - n % (2 * (last - first))) ∧
    ((nextN (AnimationIndices.new first last AnimationMode.Bounce) n).dir =
        AnimationDir.Forward ↔ n % (2 * (last - first)) < last - first) ∧
    nextN (AnimationIndices.new first last AnimationMode.Bounce)
        (2 * (last - first)) =
      AnimationIndices.new first last AnimationMode.Bounce := by
  refine ⟨?_, ?_, ?_⟩
  · exact congrArg AnimationIndices.cur (bounce_nextN first last h n)
  · have hd := congrArg AnimationIndices.dir (bounce_nextN first last h n)
    dsimp at hd
    rw [hd]
    constructor
    · intro hf
      by_contra hnot
      rw [if_neg hnot] at hf
      exact AnimationDir.noConfusion hf
    · intro hlt
      rw [if_pos hlt]
  · rw [bounce_nextN first last h (2 * (last - first))]
    rw [Nat.mod_self, if_pos (show 0 < last - first by omega)]
    simp [AnimationIndices.new]

/-- Witness for C2 at `first = 0`, `last = 2`, after 5 advances. -/
theorem c2_bounce_palindrome_witness :
    (0 : Nat) < 2 ∧
    ((nextN (AnimationIndices.new 0 2 AnimationMode.Bounce) 5).cur =
        0 + min (5 % (2 * (2 - 0))) (2 * (2 - 0) - 5 % (2 * (2 - 0))) ∧
    ((nextN (AnimationIndices.new 0 2 AnimationMode.Bounce) 5).dir =
        AnimationDir.Forward ↔ 5 % (2 * (2 - 0)) < 2 - 0) ∧
    nextN (AnimationIndices.new 0 2 AnimationMode.Bounce) (2 * (2 - 0)) =
      AnimationIndices.new 0 2 AnimationMode.Bounce) :=
  ⟨by decide, c2_bounce_palindrome 0 2 (by decide) 5⟩

/-- Counterexample to C2 as stated (it claimed the oscillation for *all*
pairs): for the pair `(0, 0)` the code never flips the direction (the flip
check compares the new `cur` against `last` after the increment, so with
`first = last = 0` it is checked at `cur = 1, 2, …`, never satisfied), and the
frames `1, 2, …` leave the range `[first, last]` instead of oscillating. -/
theorem c2_bounce_palindrome_cex :
    (nextN (AnimationIndices.new 0 0 AnimationMode.Bounce) 1).cur = 1 ∧
    (nextN (AnimationIndices.new 0 0 AnimationMode.Bounce) 2).cur = 2 ∧
    (nextN (AnimationIndices.new 0 0 AnimationMode.Bounce) 1).dir =
      AnimationDir.Forward := by
  decide

/-- Claim C3: for a `Once`-mode `AnimationIndices` with `first = 8`,
`last = 15`: after exactly 7 calls `current = 15`, the 8th call sets
`current = 16`, and every later state equals the state after 8 calls (so
`current` stays `16` and is never reset) while each further `next()` call
returns `16`. -/
theorem c3_once_terminal :
    (nextN (AnimationIndices.new 8 15 AnimationMode.Once) 7).cur = 15 ∧
    (nextN (AnimationIndices.new 8 15 AnimationMode.Once) 8).cur = 16 ∧
    (∀ k : Nat, nextN (AnimationIndices.new 8 15 AnimationMode.Once) (8 + k) =
        nextN (AnimationIndices.new 8 15 AnimationMode.Once) 8) ∧
    (∀ k : Nat,
      (nextN (AnimationIndices.new 8 15 AnimationMode.Once) (8 + k)).nextFrame =
        16) := by
  have hstuck : ∀ k : Nat,
      nextN (AnimationIndices.new 8 15 AnimationMode.Once) (8 + k) =
        nextN (AnimationIndices.new 8 15 AnimationMode.Once) 8 := by
    intro k
    induction k with
    | zero => rfl
    | succ k ih =>
      have : 8 + (k + 1) = (8 + k) + 1 := rfl
      rw [this, nextN, ih]
      decide
  refine ⟨by decide, by decide, hstuck, ?_⟩
  intro k
  rw [hstuck k]
  decide

/-- Claim C4: for `first < last`, `Cycle` mode produces the periodic frame
sequence `first, first+1, …, last, first, …` with period `last - first + 1`:
the frame after `n` calls is `first + n % (last - first + 1)`, each call
increments `cur` by 1 and wraps to `first` exactly when the incremented value
exceeds `last`, and advancing `last - first + 1` times from any state in
`[first, last]` returns to the same state. -/
theorem c4_cycle_periodic (first last : Nat) (h : first < last) :
    (∀ n : Nat,
      (nextN (AnimationIndices.new first last AnimationMode.Cycle) n).cur =
        first + n % (last - first + 1)) ∧
    (∀ a : AnimationIndices, a.mode = AnimationMode.Cycle →
      a.next.cur = if a.cur + 1 > a.last then a.first else a.cur + 1) ∧
    (∀ a : AnimationIndices, a.mode = AnimationMode.Cycle →
      a.first = first → a.last = last → first ≤ a.cur → a.cur ≤ last →
      nextN a (last - first + 1) = a) := by
  refine ⟨?_, ?_, ?_⟩
  · intro n
    have hc := congrArg AnimationIndices.cur
      (cycle_nextN (AnimationIndices.new first last AnimationMode.Cycle) rfl
        (by simpa [AnimationIndices.new] using le_of_lt h)
        (by simp [AnimationIndices.new])
        (by simpa [AnimationIndices.new] using le_of_lt h) n)
    simp only [AnimationIndices.new] at hc ⊢
    rw [hc, Nat.sub_self, Nat.zero_add]
  · intro a hm
    exact congrArg AnimationIndices.cur (next_cycle a hm)
  · intro a hm hf hl h1 h2
    subst hf
    subst hl
    rw [cycle_nextN a hm (by omega) h1 h2]
    rw [Nat.add_mod_right, Nat.mod_eq_of_lt (by omega)]
    have : a.first + (a.cur - a.first) = a.cur := by omega
    rw [this]

/-- Witness for C4 at `first = 3`, `last = 5`. -/
theorem c4_cycle_periodic_witness :
    (3 : Nat) < 5 ∧
    ((∀ n : Nat,
      (nextN (AnimationIndices.new 3 5 AnimationMode.Cycle) n).cur =
        3 + n % (5 - 3 + 1)) ∧
    (∀ a : AnimationIndices, a.mode = AnimationMode.Cycle →
      a.next.cur = if a.cur + 1 > a.last then a.first else a.cur + 1) ∧
    (∀ a : AnimationIndices, a.mode = AnimationMode.Cycle →
      a.first = 3 → a.last = 5 → 3 ≤ a.cur → a.cur ≤ 5 →
      nextN a (5 - 3 + 1) = a)) :=
  ⟨by decide, c4_cycle_periodic 3 5 (by decide)⟩

/-! ## Grounding detector, collision-event variant (src/controls.rs) -/

/-- Embedding of rapier's `CollisionEvent` as consumed by
`check_collided_grounds` (the `CollisionEventFlags` payload is never read and
is omitted).  Entity identifiers are modelled as `Nat`. -/
inductive CollisionEv
  | Started (entity entity1 : Nat)
  | Stopped (entity entity1 : Nat)
deriving DecidableEq

/-- Modelled from the spec: the `CollidedGrounds` component type is used by
`src/controls.rs` (`cg.push`, `cg.iter().position`, `cg.swap_remove`,
`cg.is_empty`) but its declaration is not among the sources under `src/`.
Following the spec (Grounded-Set, an ordered collection of entity identifiers
with the invariant that no duplicate appears, into which collision-start
events "insert the ground entity's identifier ... (ignoring duplicates)"),
the collection is an ordered list and `push` appends unless the identifier is
already present. -/
def pushGround (cg : List Nat) (g : Nat) : List Nat :=
  if g ∈ cg then cg else cg ++ [g]

/-- Embedding of `Vec::swap_remove(idx)`: overwrite position `idx` with the
final element, then drop the final element. -/
def swapRemove (cg : List Nat) (idx : Nat) : List Nat :=
  match cg.getLast? with
  | none => cg
  | some x => (cg.set idx x).dropLast

/-- The `Stopped` branch body of `check_collided_grounds`: find the position
of the ground entity in the collection (`iter().position`) and `swap_remove`
it; no-op when absent. -/
def removeGround (cg : List Nat) (g : Nat) : List Nat :=
  match cg.findIdx? (fun e => e == g) with
  | some idx => swapRemove cg idx
  | none => cg

/-- Apply `f` to the collection of the first collidee entry whose entity id
is `e` (the code's `collidee.iter_mut().find(|(e, _)| e == entity)`); no-op
when no entry matches (the code's `if let (Some(..), ..)`). -/
def updateFirst (f : List Nat → List Nat) (e : Nat) :
    List (Nat × List Nat) → List (Nat × List Nat)
  | [] => []
  | (k, v) :: rest =>
      if k = e then (k, f v) :: rest else (k, v) :: updateFirst f e rest

/-- The queries feeding `check_collided_grounds`: the `Ground`-tagged entity
ids and the tracked bodies (entity id paired with its `CollidedGrounds`). -/
structure GroundWorld where
  grounds : List Nat
  collidees : List (Nat × List Nat)
deriving DecidableEq

/-- Embedding of one loop iteration of `check_collided_grounds`: on
`Started(entity, entity1)`, when `entity` is a tracked collidee and `entity1`
is ground-tagged, push `entity1` onto that body's collection; on
`Stopped(entity, entity1)`, when both are found, locate `entity1` in the
collection and `swap_remove` it. -/
def processEvent (w : GroundWorld) (ev : CollisionEv) : GroundWorld :=
  match ev with
  | CollisionEv.Started e e1 =>
      if e1 ∈ w.grounds then
        { w with collidees := updateFirst (fun cg => pushGround cg e1) e w.collidees }
      else w
  | CollisionEv.Stopped e e1 =>
      if e1 ∈ w.grounds then
        { w with collidees := updateFirst (fun cg => removeGround cg e1) e w.collidees }
      else w

/-- Embedding of `check_collided_grounds`: drain the collision-event queue in
order, processing each event as above. -/
def check_collided_grounds (w : GroundWorld) (evs : List CollisionEv) :
    GroundWorld :=
  evs.foldl processEvent w

/-- Every tracked body's `CollidedGrounds` collection is duplicate-free. -/
def NoDupGrounds (w : GroundWorld) : Prop :=
  ∀ pr ∈ w.collidees, (Prod.snd pr).Nodup

instance (w : GroundWorld) : Decidable (NoDupGrounds w) :=
  inferInstanceAs (Decidable (∀ pr ∈ w.collidees, (Prod.snd pr).Nodup))

theorem set_append_left (A B : List Nat) (i : Nat) (y : Nat) (h : i < A.length) :
    (A ++ B).set i y = A.set i y ++ B := by
  induction A generalizing i with
  | nil => simp at h
  | cons a t ih =>
    rcases i with _ | j
    · rfl
    · dsimp [List.set]
      rw [ih j (by simpa using h)]

theorem set_concat_length (A : List Nat) (x y : Nat) :
    (A ++ [x]).set A.length y = A ++ [y] := by
  induction A with
  | nil => rfl
  | cons a t ih =>
    dsimp [List.set]
    rw [ih]

theorem nodup_set_fresh :
    ∀ (A : List Nat) (i : Nat) (x : Nat), A.Nodup → x ∉ A → (A.set i x).Nodup := by
  intro A
  induction A with
  | nil => intro i x h _; simpa using h
  | cons a t ih =>
    intro i x h hx
    rcases i with _ | j
    · dsimp [List.set]
      rw [List.nodup_cons] at h ⊢
      exact ⟨fun hm => hx (List.mem_cons_of_mem a hm), h.2⟩
    · dsimp [List.set]
      rw [List.nodup_cons] at h ⊢
      refine ⟨?_, ih j x h.2 (fun hm => hx (List.mem_cons_of_mem a hm))⟩
      intro hmem
      rcases List.mem_or_eq_of_mem_set hmem with hm | he
      · exact h.1 hm
      · cases he
        exact hx (List.mem_cons_self _ _)

theorem swapRemove_nodup (l : List Nat) (i : Nat) (h : l.Nodup) :
    (swapRemove l i).Nodup := by
  rcases List.eq_nil_or_concat l with rfl | ⟨A, x, rfl⟩
  · simpa [swapRemove] using h
  · simp only [List.concat_eq_append] at h ⊢
    rw [swapRemove, List.getLast?_concat]
    dsimp only
    rcases Nat.lt_or_ge i A.length with hi | hi
    · rw [set_append_left A [x] i x hi, List.dropLast_concat]
      have hA : A.Nodup := h.of_append_left
      have hx : x ∉ A := by
        rw [List.nodup_append] at h
        intro hm
        exact h.2.2 hm (List.mem_singleton_self x)
      exact nodup_set_fresh A i x hA hx
    · rcases Nat.eq_or_lt_of_le hi with heq | hlt
      · rw [← heq, set_concat_length, List.dropLast_concat]
        exact h.of_append_left
      · rw [List.set_eq_of_length_le (by simp; omega), List.dropLast_concat]
        exact h.of_append_left

theorem pushGround_nodup (cg : List Nat) (g : Nat) (h : cg.Nodup) :
    (pushGround cg g).Nodup := by
  rw [pushGround]
  split_ifs with hm
  · exact h
  · rw [List.nodup_append]
    exact ⟨h, List.nodup_singleton g,
      fun a ha hb => hm ((List.mem_singleton.mp hb) ▸ ha)⟩

theorem removeGround_nodup (cg : List Nat) (g : Nat) (h : cg.Nodup) :
    (removeGround cg g).Nodup := by
  rw [removeGround]
  rcases hidx : cg.findIdx? (fun e => e == g) with _ | idx
  · exact h
  · exact swapRemove_nodup cg idx h

theorem updateFirst_nodup (f : List Nat → List Nat) (e : Nat)
    (hf : ∀ cg : List Nat, cg.Nodup → (f cg).Nodup) :
    ∀ (L : List (Nat × List Nat)), (∀ pr ∈ L, (Prod.snd pr).Nodup) →
      ∀ pr ∈ updateFirst f e L, (Prod.snd pr).Nodup := by
  intro L
  induction L with
  | nil => intro _ pr hpr; simp [updateFirst] at hpr
  | cons kv rest ih =>
    intro h pr hpr
    obtain ⟨k, v⟩ := kv
    rw [updateFirst] at hpr
    split_ifs at hpr with hk
    · rcases List.mem_cons.mp hpr with rfl | hm
      · exact hf v (h (k, v) (List.mem_cons_self _ _))
      · exact h pr (List.mem_cons_of_mem _ hm)
    · rcases List.mem_cons.mp hpr with rfl | hm
      · exact h (k, v) (List.mem_cons_self _ _)
      · exact ih (fun q hq => h q (List.mem_cons_of_mem _ hq)) pr hm

theorem processEvent_nodup (w : GroundWorld) (ev : CollisionEv)
    (h : NoDupGrounds w) : NoDupGrounds (processEvent w ev) := by
  cases ev with
  | Started e e1 =>
    rw [NoDupGrounds, processEvent]
    split_ifs with hg
    · exact updateFirst_nodup _ e (fun cg hcg => pushGround_nodup cg e1 hcg)
        w.collidees h
    · exact h
  | Stopped e e1 =>
    rw [NoDupGrounds, processEvent]
    split_ifs with hg
    · exact updateFirst_nodup _ e (fun cg hcg => removeGround_nodup cg e1 hcg)
        w.collidees h
    · exact h

theorem check_collided_grounds_nodup (evs : List CollisionEv) :
    ∀ w : GroundWorld, NoDupGrounds w →
      NoDupGrounds (check_collided_grounds w evs) := by
  induction evs with
  | nil => intro w h; exact h
  | cons ev evs ih =>
    intro w h
    exact ih (processEvent w ev) (processEvent_nodup w ev h)

/-- Claim C5: for every sequence of collision start/stop events processed by
`check_collided_grounds`, a body's `CollidedGrounds` never contains the same
ground entity twice: the insert ignores an already-present ground entity, and
the no-duplicate invariant is preserved by every event. -/
theorem c5_no_duplicate_grounds (w : GroundWorld) (evs : List CollisionEv)
    (h : NoDupGrounds w) :
    NoDupGrounds (check_collided_grounds w evs) ∧
    ∀ (cg : List Nat) (g : Nat), g ∈ cg → pushGround cg g = cg :=
  ⟨check_collided_grounds_nodup evs w h,
    fun cg g hg => by rw [pushGround, if_pos hg]⟩

/-- Witness for C5: one ground entity `1`, one tracked body `2` already
touching it, and a duplicate start event followed by a stop event. -/
theorem c5_no_duplicate_grounds_witness :
    NoDupGrounds { grounds := [1], collidees := [(2, [1])] } ∧
    (NoDupGrounds (check_collided_grounds
        { grounds := [1], collidees := [(2, [1])] }
        [CollisionEv.Started 2 1, CollisionEv.Started 2 1,
          CollisionEv.Stopped 2 1]) ∧
      ∀ (cg : List Nat) (g : Nat), g ∈ cg → pushGround cg g = cg) :=
  ⟨by decide, c5_no_duplicate_grounds _ _ (by decide)⟩

/-! ## Gravity controller (src/controls.rs, `gravity_control`) -/

/-- Embedding of the per-body update of `gravity_control`: the `GravityScale`
written back, as a function of the body's current gravity scale and its
`CollidedGrounds` collection.  The `f32` constants `30.0` and `0.0` are
exactly representable and modelled as rationals. -/
def gravity_control (gs : ℚ) (cg : List Nat) : ℚ :=
  if cg.isEmpty then 30 else 0

/-- Claim C6: `gravity_control` sets the gravity scale to exactly `0` when
the `CollidedGrounds` collection is non-empty (grounded) and to exactly `30`
when it is empty (airborne), independently of the previous gravity scale
(pure function of the grounding state, no hysteresis). -/
theorem c6_gravity_control (gs gs' : ℚ) (cg : List Nat) :
    (cg ≠ [] → gravity_control gs cg = 0) ∧
    (cg = [] → gravity_control gs cg = 30) ∧
    gravity_control gs cg = gravity_control gs' cg := by
  refine ⟨?_, ?_, rfl⟩
  · intro h
    rw [gravity_control, if_neg (by simpa [List.isEmpty_iff] using h)]
  · intro h
    subst h
    rfl

/-- Witness for C6 at a grounded body (`cg = [3]`) and an airborne body
(`cg = []`). -/
theorem c6_gravity_control_witness :
    (([3] : List Nat) ≠ [] ∧ gravity_control 7 [3] = 0) ∧
    (([] : List Nat) = [] ∧ gravity_control 7 [] = 30) :=
  ⟨⟨by decide, (c6_gravity_control 7 8 [3]).1 (by decide)⟩,
    ⟨rfl, (c6_gravity_control 7 8 []).2.1 rfl⟩⟩

/-! ## Vectors: componentwise model of glam `Vec3`/`Vec2` over an exact
number type (`ℚ` where only ring operations occur, `ℝ` where normalisation
or trigonometry occurs). -/

/-- Componentwise model of `Vec3`. -/
structure V3 (α : Type) where
  x : α
  y : α
  z : α
deriving DecidableEq

/-- Componentwise model of `Vec2`. -/
structure V2 (α : Type) where
  x : α
  y : α
deriving DecidableEq

theorem V3.eqOfFields3 {α : Type} {a b : V3 α} (hx : a.x = b.x) (hy : a.y = b.y)
    (hz : a.z = b.z) : a = b := by
  cases a
  cases b
  cases hx
  cases hy
  cases hz
  rfl

theorem V2.eqOfFields2 {α : Type} {a b : V2 α} (hx : a.x = b.x) (hy : a.y = b.y) :
    a = b := by
  cases a
  cases b
  cases hx
  cases hy
  rfl

/-- `Vec3` componentwise addition. -/
def V3.add {α : Type} [Add α] (a b : V3 α) : V3 α :=
  { x := a.x + b.x, y := a.y + b.y, z := a.z + b.z }

/-- `Vec3` componentwise subtraction. -/
def V3.sub {α : Type} [Sub α] (a b : V3 α) : V3 α :=
  { x := a.x - b.x, y := a.y - b.y, z := a.z - b.z }

/-- `Vec3 * scalar`. -/
def V3.smul {α : Type} [Mul α] (a : V3 α) (s : α) : V3 α :=
  { x := a.x * s, y := a.y * s, z := a.z * s }

/-- glam's `Vec3::cross`. -/
def V3.cross {α : Type} [Mul α] [Sub α] (a b : V3 α) : V3 α :=
  { x := a.y * b.z - a.z * b.y, y := a.z * b.x - a.x * b.z,
    z := a.x * b.y - a.y * b.x }

/-- glam's `Vec3::xz()`: the horizontal components, as a `Vec2`. -/
def V3.xz {α : Type} (v : V3 α) : V2 α :=
  { x := v.x, y := v.z }

/-- `Vec2 * scalar`. -/
def V2.smul {α : Type} [Mul α] (a : V2 α) (s : α) : V2 α :=
  { x := a.x * s, y := a.y * s }

/-- `Vec2` componentwise subtraction. -/
def V2.sub {α : Type} [Sub α] (a b : V2 α) : V2 α :=
  { x := a.x - b.x, y := a.y - b.y }

theorem V3.add_x {α : Type} [Add α] (a b : V3 α) : (a.add b).x = a.x + b.x := rfl

theorem V3.add_y {α : Type} [Add α] (a b : V3 α) : (a.add b).y = a.y + b.y := rfl

theorem V3.add_z {α : Type} [Add α] (a b : V3 α) : (a.add b).z = a.z + b.z := rfl

theorem V3.sub_x {α : Type} [Sub α] (a b : V3 α) : (a.sub b).x = a.x - b.x := rfl

theorem V3.sub_y {α : Type} [Sub α] (a b : V3 α) : (a.sub b).y = a.y - b.y := rfl

theorem V3.sub_z {α : Type} [Sub α] (a b : V3 α) : (a.sub b).z = a.z - b.z := rfl

/-! ## Movement reconciler (src/controls.rs, `entities_try_to_move` and
`calc_force_diff`) -/

/-- Embedding of `calc_force_diff(clamped_input, current_velocity,
target_velocity)`: `target_speed = target_velocity * clamped_input`,
`diff_to_make_up = target_speed - current_velocity`, result
`diff_to_make_up * 300.0`.  `f32` arithmetic is modelled exactly over `ℚ`. -/
def calc_force_diff (clamped_input : ℚ) (current_velocity target_velocity : V2 ℚ) :
    V2 ℚ :=
  let target_speed := target_velocity.smul clamped_input
  let diff_to_make_up := target_speed.sub current_velocity
  diff_to_make_up.smul 300

/-- Embedding of one body's update in `entities_try_to_move`:
`new_force = calc_force_diff(1.0, vel.linvel.xz(), move_vec.xz())` and the
written force is `Vec3::new(new_force.x, force.force.y, new_force.y)`. -/
def entities_try_to_move (force vel move_vec : V3 ℚ) : V3 ℚ :=
  let new_force := calc_force_diff 1 (vel.xz) (move_vec.xz)
  { x := new_force.x, y := force.y, z := new_force.y }

/-- Claim C7: the force written by `entities_try_to_move` has horizontal
components `300 * (target - current)` where the target is the move vector's
xz components scaled by `clamped_input = 1`, while the vertical component is
the force's previous `y` component, left unchanged; in particular current
velocity `(0,0)` with target `(5,0)` yields `(1500,0)`, and current equal to
target yields `(0,0)`. -/
theorem c7_force_reconciler (force vel move_vec : V3 ℚ) :
    (entities_try_to_move force vel move_vec).x =
        300 * (move_vec.x * 1 - vel.x) ∧
    (entities_try_to_move force vel move_vec).z =
        300 * (move_vec.z * 1 - vel.z) ∧
    (entities_try_to_move force vel move_vec).y = force.y ∧
    calc_force_diff 1 { x := 0, y := 0 } { x := 5, y := 0 } =
        { x := 1500, y := 0 } ∧
    (∀ v : V2 ℚ, calc_force_diff 1 v v = { x := 0, y := 0 }) := by
  refine ⟨?_, ?_, rfl, ?_, ?_⟩
  · show (move_vec.x * 1 - vel.x) * 300 = 300 * (move_vec.x * 1 - vel.x)
    ring
  · show (move_vec.z * 1 - vel.z) * 300 = 300 * (move_vec.z * 1 - vel.z)
    ring
  · apply V2.eqOfFields2 <;> norm_num [calc_force_diff, V2.smul, V2.sub]
  · intro v
    apply V2.eqOfFields2 <;> simp [calc_force_diff, V2.smul, V2.sub]

/-! ## Input mapper (src/controls.rs, `control_player`) and camera follow
(`camera_lock`).  These need `ℝ` (normalisation uses a square root, the
camera angle uses sine/cosine); bevy's `Vec3::normalize`, `normalize_or`,
`Transform::looking_at` and `f32::to_radians` are external library functions
modelled below. -/

/-- glam's `Vec3::length`. -/
noncomputable def V3.length (v : V3 ℝ) : ℝ :=
  Real.sqrt (v.x ^ 2 + v.y ^ 2 + v.z ^ 2)

/-- glam's `Vec3::normalize`: the vector divided by its length. -/
noncomputable def V3.normalize (v : V3 ℝ) : V3 ℝ :=
  { x := v.x / v.length, y := v.y / v.length, z := v.z / v.length }

/-- glam's `Vec3::normalize_or(fallback)`: the fallback when the vector
cannot be normalised (in the exact-real model: when it is zero), otherwise
the normalised vector. -/
noncomputable def V3.normalizeOr (v fallback : V3 ℝ) : V3 ℝ :=
  if v = { x := 0, y := 0, z := 0 } then fallback else v.normalize

/-- The external input layer (leafwing's `ActionState`): the `pressed` and
`released` query results for the four directional actions, modelled as
independent booleans supplied by the input-binding collaborator. -/
structure ActionState where
  leftPressed : Bool
  rightPressed : Bool
  upPressed : Bool
  downPressed : Bool
  leftReleased : Bool
  rightReleased : Bool
  upReleased : Bool
  downReleased : Bool
deriving DecidableEq

/-- Embedding of `control_player` (src/controls.rs) for the singleton player.
`prev` is the `MoveVector` persisted from the previous invocation (the code
takes the mutable reference and immediately overwrites it with `Vec3::ZERO`
before reading any input), `cam` and `player` are the camera and player
translations, `move_speed` the player's `MoveSpeed`.  The returned vector is
the `MoveVector` written back: held actions add or subtract the
`forward`/`right` vectors, actions whose `released` query is true contribute
the inverse, and the result is `normalize_or(ZERO) * move_speed`. -/
noncomputable def control_player (prev : V3 ℝ) (move_speed : ℝ)
    (cam player : V3 ℝ) (st : ActionState) : V3 ℝ :=
  let mv0 : V3 ℝ := { x := 0, y := 0, z := 0 }
  let forward : V3 ℝ :=
    V3.normalize { x := player.x - cam.x, y := 0, z := player.z - cam.z }
  let right : V3 ℝ := forward.cross { x := 0, y := 1, z := 0 }
  let mv1 := if st.leftPressed then mv0.sub right else mv0
  let mv2 := if st.rightPressed then mv1.add right else mv1
  let mv3 := if st.downPressed then mv2.sub forward else mv2
  let mv4 := if st.upPressed then mv3.add forward else mv3
  let mv5 := if st.leftReleased then mv4.add right else mv4
  let mv6 := if st.rightReleased then mv5.sub right else mv5
  let mv7 := if st.downReleased then mv6.add forward else mv6
  let mv8 := if st.upReleased then mv7.sub forward else mv7
  (mv8.normalizeOr { x := 0, y := 0, z := 0 }).smul move_speed

/-- The accumulated contributions as claim C8 lists them: each held action
adds or subtracts its unit vector (Up adds `forward`, Down subtracts
`forward`, Right adds `right`, Left subtracts `right`) and each action whose
`released` query is true contributes the inverse (Left adds `right`, Right
subtracts `right`, Down adds `forward`, Up subtracts `forward`). -/
def claimContributions (forward right : V3 ℝ) (st : ActionState) : V3 ℝ :=
  let zv : V3 ℝ := { x := 0, y := 0, z := 0 }
  ((((((((zv.add (if st.upPressed then forward else zv)).sub
    (if st.downPressed then forward else zv)).add
    (if st.rightPressed then right else zv)).sub
    (if st.leftPressed then right else zv)).add
    (if st.leftReleased then right else zv)).sub
    (if st.rightReleased then right else zv)).add
    (if st.downReleased then forward else zv)).sub
    (if st.upReleased then forward else zv))

theorem ite_add_push (c : Prop) [Decidable c] (m v : V3 ℝ) :
    (if c then m.add v else m) =
      m.add (if c then v else { x := 0, y := 0, z := 0 }) := by
  split_ifs <;> apply V3.eqOfFields3 <;> simp [V3.add]

theorem ite_sub_push (c : Prop) [Decidable c] (m v : V3 ℝ) :
    (if c then m.sub v else m) =
      m.sub (if c then v else { x := 0, y := 0, z := 0 }) := by
  split_ifs <;> apply V3.eqOfFields3 <;> simp [V3.sub]

/-- Claim C8: one invocation of the input mapper returns exactly the
normalised (zero stays zero) and move-speed-scaled sum of the held-action
contributions and the inverse contributions of the actions whose `released`
query is true, with `forward` the horizontal unit vector from camera to
player and `right = forward × Y`. -/
theorem c8_input_mapper (prev : V3 ℝ) (move_speed : ℝ) (cam player : V3 ℝ)
    (st : ActionState) :
    control_player prev move_speed cam player st =
      ((claimContributions
          (V3.normalize { x := player.x - cam.x, y := 0, z := player.z - cam.z })
          ((V3.normalize
              { x := player.x - cam.x, y := 0, z := player.z - cam.z }).cross
            { x := 0, y := 1, z := 0 })
          st).normalizeOr { x := 0, y := 0, z := 0 }).smul move_speed := by
  rw [control_player, claimContributions]
  simp only [ite_add_push, ite_sub_push]
  congr 1
  congr 1
  apply V3.eqOfFields3 <;>
    simp only [V3.add_x, V3.add_y, V3.add_z, V3.sub_x, V3.sub_y, V3.sub_z,
      apply_ite V3.x, apply_ite V3.y, apply_ite V3.z] <;>
    ring

/-- Claim C9 evaluation: the code *does* reset the intended movement vector
to zero at read-time (`**move_vec = Vec3::ZERO;` at the top of
`control_player`), contradicting the code's own comment ("can't just set
move_vec to 0 at start of function call because we have to keep track of how
much velocity moving is adding"): the output never depends on the value
persisted from the previous invocation, and with no action held or released
a persisted non-zero vector is replaced by zero instead of being carried
forward. -/
theorem c9_move_vector_reset :
    (∀ (prev prev' : V3 ℝ) (move_speed : ℝ) (cam player : V3 ℝ)
        (st : ActionState),
      control_player prev move_speed cam player st =
        control_player prev' move_speed cam player st) ∧
    control_player { x := 3, y := 0, z := 0 } 5 { x := 0, y := 5, z := 10 }
        { x := 0, y := 0, z := 0 }
        { leftPressed := false, rightPressed := false, upPressed := false,
          downPressed := false, leftReleased := false, rightReleased := false,
          upReleased := false, downReleased := false } =
      { x := 0, y := 0, z := 0 } := by
  constructor
  · intro prev prev' move_speed cam player st
    rfl
  · rw [control_player]
    simp only [Bool.false_eq_true, if_false]
    rw [V3.normalizeOr, if_pos rfl]
    apply V3.eqOfFields3 <;> simp [V3.smul]

/-! ## Camera follow (src/controls.rs, `camera_lock`) -/

/-- Embedding of `const CAMERA_ANGLE: f32 = 30_f32.to_radians()`
(`to_radians` multiplies by π/180). -/
noncomputable def CAMERA_ANGLE : ℝ := 30 * (Real.pi / 180)

/-- The camera transform as observable after `camera_lock`: its translation,
and the orientation produced by bevy's external
`Transform::looking_at(target, up)`, modelled by recording the target and up
arguments of that call. -/
structure CamTransform where
  translation : V3 ℝ
  lookTarget : V3 ℝ
  lookUp : V3 ℝ

/-- Embedding of `camera_lock`: `x = dist * sin(CAMERA_ANGLE)`,
`y = dist * cos(CAMERA_ANGLE)`, camera translation = player translation +
`Vec3::new(x, y, x)`, then `looking_at(player.translation, Vec3::Y)`. -/
noncomputable def camera_lock (dist : ℝ) (player : V3 ℝ) : CamTransform :=
  let x := dist * Real.sin CAMERA_ANGLE
  let y := dist * Real.cos CAMERA_ANGLE
  { translation := player.add { x := x, y := y, z := x },
    lookTarget := player,
    lookUp := { x := 0, y := 1, z := 0 } }

/-- Claim C10: `camera_lock` sets the camera position to the character's
position plus the offset `(d·sin 30°, d·cos 30°, d·sin 30°)` (30° in radians
is π/6) and orients the camera to look at the character's position with up =
world Y; for `d = 120` and the character at the origin the camera position is
`(120·sin 30°, 120·cos 30°, 120·sin 30°)`. -/
theorem c10_camera_lock (dist : ℝ) (player : V3 ℝ) :
    (camera_lock dist player).translation =
      player.add
        { x := dist * Real.sin (Real.pi / 6), y := dist * Real.cos (Real.pi / 6),
          z := dist * Real.sin (Real.pi / 6) } ∧
    (camera_lock dist player).lookTarget = player ∧
    (camera_lock dist player).lookUp = { x := 0, y := 1, z := 0 } ∧
    (camera_lock 120 { x := 0, y := 0, z := 0 }).translation =
      { x := 120 * Real.sin (Real.pi / 6), y := 120 * Real.cos (Real.pi / 6),
        z := 120 * Real.sin (Real.pi / 6) } := by
  have hangle : CAMERA_ANGLE = Real.pi / 6 := by
    rw [CAMERA_ANGLE]
    ring
  refine ⟨?_, rfl, rfl, ?_⟩
  · rw [camera_lock, hangle]
  · rw [camera_lock, hangle]
    apply V3.eqOfFields3 <;> simp [V3.add]
